import Mathlib

/-!
Verification of the A2C (Advantage Actor-Critic) agent in `A2C.py`.

The development shallowly embeds the parts of the program the properties
talk about: discounted-return computation, per-iteration batch aggregation
in `A2C.learn` / `A2CContinuous.learn`, the one-hot action encoding of the
discrete learner, the numeric safeguards (epsilon flooring of probabilities,
softplus-floored standard deviation, action clipping), the control flow of
one training iteration and of the whole loop, and the exception structure
of `main`.  Machine floating point is modelled by exact rationals (`ℚ`) for
the algebraic/algorithmic facts and by real numbers (`ℝ`) for the
transcendental softplus bound.
-/

/-- Modelled from the spec: `discount_rewards` is imported from `utils`
(`from utils import discount_rewards`), whose source is not part of this
repository snapshot.  Spec §4.2: given a reward sequence `r_0..r_{T-1}` and
discount factor `γ`, it produces the same-length sequence of discounted
returns where the value at step `t` equals
`r_t + γ·r_{t+1} + γ²·r_{t+2} + … + γ^{T-1-t}·r_{T-1}`
(decayed suffix sum, computed right-to-left), with no clipping or
normalization. -/
def discount_rewards : List ℚ → ℚ → List ℚ
  | [], _ => []
  | r :: rest, g =>
    let tail := discount_rewards rest g
    (r + g * tail.headD 0) :: tail

/-- One recorded episode rollout: the per-step state, action and reward
sequences produced by `Learner.get_trajectories` and consumed by `learn`
(`trajectory["state"]`, `trajectory["action"]`, `trajectory["reward"]`). -/
structure Trajectory (σ α : Type) where
  state : List σ
  action : List α
  reward : List ℚ

/-- `all_state = np.concatenate([trajectory["state"] for trajectory in trajectories])`
(A2C.py line 71 / 232). -/
def allState {σ α : Type} (trajs : List (Trajectory σ α)) : List σ :=
  (trajs.map Trajectory.state).flatten

/-- `all_action = np.concatenate([trajectory["action"] for trajectory in trajectories])`
(A2C.py line 69 / 231), before any encoding. -/
def allAction {σ α : Type} (trajs : List (Trajectory σ α)) : List α :=
  (trajs.map Trajectory.action).flatten

/-- `returns = np.concatenate([discount_rewards(trajectory["reward"], config["gamma"]) for trajectory in trajectories])`
(A2C.py line 73 / 234): discounted returns are computed per trajectory and
then concatenated across the batch. -/
def iterReturns {σ α : Type} (trajs : List (Trajectory σ α)) (g : ℚ) : List ℚ :=
  (trajs.map fun t => discount_rewards t.reward g).flatten

/-- `possible_actions = np.arange(self.nA)` (A2C.py line 63). -/
def possible_actions (nA : ℕ) : List ℕ :=
  List.range nA

/-- One row of `(possible_actions == all_action[:, None]).astype(np.float32)`
(A2C.py line 70): the float indicator vector of the action `a` taken at one
timestep, over the `nA` possible actions. -/
def oneHot (nA a : ℕ) : List ℚ :=
  (possible_actions nA).map fun i => if i = a then 1 else 0

/-- One row of
`good_probabilities = tf.reduce_sum(tf.multiply(self.prob_na, self.actions_taken), reduction_indices=[1])`
(A2C.py line 115): elementwise product of the softmax output row with the
encoded action row, summed across actions. -/
def goodProbability (prob enc : List ℚ) : ℚ :=
  (List.zipWith (· * ·) prob enc).sum

/-- The elementwise flooring inside the discrete actor loss (A2C.py line 116):
`tf.where(tf.equal(good_probabilities, 0.0), fill(1e-30), good_probabilities)`
applied to one probability value, producing the argument of `tf.log`. -/
def floorProb (p : ℚ) : ℚ :=
  if p = 0 then 1e-30 else p

/-- `tf.clip_by_value(t, lo, hi)` computes `max(min(t, hi), lo)`; applied to
the sampled continuous action at A2C.py line 182 with
`lo = action_space.low[0]` and `hi = action_space.high[0]`. -/
def clip_by_value (x lo hi : ℚ) : ℚ :=
  max (min x hi) lo

/-- `tf.nn.softplus(x) = log(1 + exp(x))`, in the real-number model. -/
noncomputable def softplus (x : ℝ) : ℝ :=
  Real.log (1 + Real.exp x)

/-- The continuous actor's standard deviation
`sigma = tf.nn.softplus(sigma) + 1e-5` (A2C.py line 178), as a function of
the raw output `x` of the sigma projection. -/
noncomputable def sigmaOut (x : ℝ) : ℝ :=
  softplus x + 1e-5

/-- The externally visible operations performed by the body of one `learn`
iteration, in source order (A2C.py lines 65-92 / 227-253). -/
inductive Event
  /-- `trajectories = self.get_trajectories()` (line 67 / 229). -/
  | collect
  /-- `qw_new = self.get_critic_value(all_state)` (line 74 / 235): the critic
  value query producing `critic_feedback`. -/
  | criticQuery
  /-- the single `sess.run([summary_op, critic_train, actor_train], ...)`
  (line 79 / 240): one joint actor+critic gradient update over the pooled
  batch. -/
  | jointUpdate
  /-- `reporter.print_iteration_stats(...)` (line 92 / 253). -/
  | report
deriving DecidableEq, BEq, Repr

/-- The operations executed by one iteration of `learn` for a collected batch
`trajs`: collection, then the critic value query, then exactly one joint
gradient update (however many trajectories are in the batch), then the
report.  The body contains a single `sess.run` of the two train ops and no
inner loop over trajectories. -/
def iterationEvents {σ α : Type} (trajs : List (Trajectory σ α)) : List Event :=
  [Event.collect, Event.criticQuery, Event.jointUpdate, Event.report]

/-- `for iteration in range(config["n_iter"]): ...` (A2C.py line 65 / 227):
the loop body runs once for every `iteration` in `range(n_iter)`, with no
early-stopping or convergence check; `batches i` is the batch collected in
iteration `i`. -/
def learnEvents {σ α : Type} (n_iter : ℕ) (batches : ℕ → List (Trajectory σ α)) : List Event :=
  ((List.range n_iter).map fun i => iterationEvents (batches i)).flatten

/-- Critic-parameter versions across the loop, counting updates: starting
from parameter version `v`, each iteration first reads the critic at the
current version (`qw_new = self.get_critic_value(all_state)`, line 74, used
as `critic_feedback`) and then runs `critic_train` inside the joint
`sess.run` (line 79), advancing the version by one.  Each list entry is
`(version read for critic_feedback, version after the update)` for one
iteration. -/
def criticTrace : ℕ → ℕ → List (ℕ × ℕ)
  | _, 0 => []
  | v, n + 1 => (v, v + 1) :: criticTrace (v + 1) n

/-- The phases of `main` (A2C.py lines 260-278) during which an asynchronous
`KeyboardInterrupt` can be raised. -/
inductive Phase
  /-- inside the first try block: `args = parser.parse_args()` (lines 261-264),
  guarded by a bare `except:` that calls `sys.exit()`. -/
  | parseArgs
  /-- `env = gym.make(args.environment)` (line 265), outside both try blocks. -/
  | makeEnv
  /-- agent construction (lines 266-273), outside both try blocks. -/
  | buildAgent
  /-- inside the second try block: `wrappers.Monitor(...)` and `agent.learn()`
  (lines 274-276), guarded by `except KeyboardInterrupt: pass`. -/
  | trainBlock
deriving DecidableEq, Repr

/-- How the process ends in the `main` model. -/
inductive MainResult
  /-- `main` returned normally. -/
  | completed
  /-- the interrupt was caught and the process terminated gracefully
  (`sys.exit()` from the bare `except:`, or `pass` from
  `except KeyboardInterrupt:` followed by falling off the end of `main`). -/
  | gracefulStop
  /-- the `KeyboardInterrupt` propagated out of `main` uncaught and the
  interpreter terminated with a traceback. -/
  | uncaughtInterrupt
deriving DecidableEq, Repr

/-- Model of `main` (A2C.py lines 260-278) under an optional interrupt raised
during the given phase.  `pre` is the output the program has produced before
the interrupt point (or the whole run's output when no interrupt occurs);
the result pairs the final output of the process with how it ended.  An
interrupt inside the first try block hits the bare `except:` and `sys.exit()`
(graceful, no extra output); an interrupt during `gym.make` or agent
construction is caught by neither handler, so the interpreter prints a
traceback and dies; an interrupt inside the second try block hits
`except KeyboardInterrupt: pass`, after which `main` ends with no further
output. -/
def mainRun : Option Phase → List String → List String × MainResult
  | none, pre => (pre, MainResult.completed)
  | some Phase.parseArgs, pre => (pre, MainResult.gracefulStop)
  | some Phase.makeEnv, pre => (pre ++ ["Traceback: KeyboardInterrupt"], MainResult.uncaughtInterrupt)
  | some Phase.buildAgent, pre => (pre ++ ["Traceback: KeyboardInterrupt"], MainResult.uncaughtInterrupt)
  | some Phase.trainBlock, pre => (pre, MainResult.gracefulStop)

/-! ### Helper lemmas -/

theorem headD_eq_getD_zero (l : List ℚ) (d : ℚ) : l.headD d = l.getD 0 d := by
  cases l <;> rfl

theorem discount_rewards_length (r : List ℚ) (g : ℚ) :
    (discount_rewards r g).length = r.length := by
  induction r with
  | nil => rfl
  | cons a rest ih => simpa [discount_rewards] using ih

theorem discount_rewards_getD (r : List ℚ) (g : ℚ) (t : ℕ) :
    (discount_rewards r g).getD t 0 =
      r.getD t 0 + g * (discount_rewards r g).getD (t + 1) 0 := by
  induction r generalizing t with
  | nil => simp [discount_rewards]
  | cons a rest ih =>
    cases t with
    | zero =>
      simp only [discount_rewards, List.getD_cons_zero, List.getD_cons_succ]
      rw [headD_eq_getD_zero]
    | succ s =>
      simpa [discount_rewards, List.getD_cons_succ] using ih s

theorem discount_rewards_last (r : List ℚ) (g : ℚ) (h : r ≠ []) :
    (discount_rewards r g).getD (r.length - 1) 0 = r.getD (r.length - 1) 0 := by
  induction r with
  | nil => exact absurd rfl h
  | cons a rest ih =>
    cases rest with
    | nil => simp [discount_rewards]
    | cons b rest2 =>
      have hne : (b :: rest2) ≠ ([] : List ℚ) := by simp
      simpa [discount_rewards, List.getD_cons_succ] using ih hne

theorem zipWith_mul_replicate_zero (xs : List ℚ) (n : ℕ) :
    (List.zipWith (· * ·) xs (List.replicate n (0 : ℚ))).sum = 0 := by
  induction xs generalizing n with
  | nil => simp
  | cons x xs ih =>
    cases n with
    | zero => simp
    | succ m => simpa [List.replicate_succ] using ih m

theorem oneHot_length (nA a : ℕ) : (oneHot nA a).length = nA := by
  simp [oneHot, possible_actions]

theorem oneHot_getD_self (nA a : ℕ) (h : a < nA) : (oneHot nA a).getD a 0 = 1 := by
  simp [oneHot, possible_actions, List.getD_eq_getElem?_getD, List.getElem?_map,
    List.getElem?_range h]

theorem oneHot_getD_other (nA a j : ℕ) (hj : j < nA) (hja : j ≠ a) :
    (oneHot nA a).getD j 0 = 0 := by
  simp [oneHot, possible_actions, List.getD_eq_getElem?_getD, List.getElem?_map,
    List.getElem?_range hj, hja]

theorem goodProbability_oneHot (p : List ℚ) (a : ℕ) (h : a < p.length) :
    goodProbability p (oneHot p.length a) = p.getD a 0 := by
  induction p generalizing a with
  | nil => exact absurd h (Nat.not_lt_zero a)
  | cons x xs ih =>
    have hrange : List.range (xs.length + 1) = 0 :: (List.range xs.length).map Nat.succ :=
      List.range_succ_eq_map xs.length
    cases a with
    | zero =>
      have hzero : ((List.range xs.length).map fun i => if Nat.succ i = 0 then (1 : ℚ) else 0)
          = List.replicate xs.length 0 := by
        rw [List.eq_replicate_iff]
        constructor
        · simp
        · intro b hb
          rcases List.mem_map.mp hb with ⟨i, _, hi⟩
          simpa using hi.symm
      simp only [goodProbability, oneHot, possible_actions, List.length_cons, hrange,
        List.map_cons, List.map_map, Function.comp_def, List.zipWith_cons_cons,
        List.sum_cons]
      rw [hzero, zipWith_mul_replicate_zero]
      simp
    | succ b =>
      have hb : b < xs.length := Nat.lt_of_succ_lt_succ h
      have hmap : ((List.range xs.length).map fun i => if Nat.succ i = b + 1 then (1 : ℚ) else 0)
          = (List.range xs.length).map fun i => if i = b then (1 : ℚ) else 0 := by
        apply List.map_congr_left
        intro i _
        by_cases hib : i = b
        · simp [hib]
        · have hns : Nat.succ i ≠ b + 1 := by omega
          simp [hib, hns]
      have ihb := ih b hb
      simp only [goodProbability, oneHot, possible_actions] at ihb
      simp only [goodProbability, oneHot, possible_actions, List.length_cons, hrange,
        List.map_cons, List.map_map, Function.comp_def, List.zipWith_cons_cons,
        List.sum_cons]
      rw [hmap, ihb]
      have h0 : ¬ ((0 : ℕ) = b + 1) := by omega
      simp [h0, List.getD_cons_succ]

theorem criticTrace_length (v n : ℕ) : (criticTrace v n).length = n := by
  induction n generalizing v with
  | zero => rfl
  | succ m ih => simpa [criticTrace] using ih (v + 1)

theorem criticTrace_getD (n v i : ℕ) (h : i < n) :
    (criticTrace v n).getD i (0, 0) = (v + i, v + i + 1) := by
  induction n generalizing v i with
  | zero => exact absurd h (Nat.not_lt_zero i)
  | succ m ih =>
    cases i with
    | zero => simp [criticTrace]
    | succ j =>
      have hj : j < m := Nat.lt_of_succ_lt_succ h
      have hrec := ih (v + 1) j hj
      simp only [criticTrace, List.getD_cons_succ, hrec, Prod.mk.injEq]
      omega

theorem learnEvents_update_count {σ α : Type} (n : ℕ) (batches : ℕ → List (Trajectory σ α)) :
    (learnEvents n batches).count Event.jointUpdate = n := by
  induction n with
  | zero => rfl
  | succ m ih =>
    simp only [learnEvents, List.range_succ, List.map_append, List.flatten_append,
      List.count_append] at ih ⊢
    rw [ih]
    rfl

/-! ### Claim theorems -/

/-- C1: for every reward sequence and discount factor `g ∈ (0,1]`, the
discounted-return sequence has the same length, its last entry equals the
last reward, and every entry satisfies
`return[t] = r[t] + g * return[t+1]` (with the convention that entries past
the end read as 0, which makes the recurrence hold at the last index too);
no clipping or normalization is applied. -/
theorem discount_rewards_spec (r : List ℚ) (g : ℚ) (t : ℕ)
    (h0 : 0 < g) (h1 : g ≤ 1) (hne : r ≠ []) :
    (discount_rewards r g).length = r.length ∧
    (discount_rewards r g).getD (r.length - 1) 0 = r.getD (r.length - 1) 0 ∧
    (discount_rewards r g).getD t 0 =
      r.getD t 0 + g * (discount_rewards r g).getD (t + 1) 0 :=
  ⟨discount_rewards_length r g, discount_rewards_last r g hne, discount_rewards_getD r g t⟩

/-- Witness for C1 at `r = [1, 2, 3]`, `g = 1/2`, `t = 0`. -/
theorem discount_rewards_spec_witness :
    (discount_rewards [1, 2, 3] (1 / 2)).length = ([1, 2, 3] : List ℚ).length ∧
    (discount_rewards [1, 2, 3] (1 / 2)).getD (([1, 2, 3] : List ℚ).length - 1) 0 =
      ([1, 2, 3] : List ℚ).getD (([1, 2, 3] : List ℚ).length - 1) 0 ∧
    (discount_rewards [1, 2, 3] (1 / 2)).getD 0 0 =
      ([1, 2, 3] : List ℚ).getD 0 0 + (1 / 2) * (discount_rewards [1, 2, 3] (1 / 2)).getD 1 0 :=
  discount_rewards_spec [1, 2, 3] (1 / 2) 0 (by norm_num) (by norm_num) (by simp)

/-- C2: the pooled returns vector of a batch is the concatenation of
per-trajectory discounted returns, each computed only from that trajectory's
own rewards (the segment contributed by a trajectory is unchanged by
whatever precedes or follows it in the batch); and there are reward lists
and a discount factor in `(0,1]` for which treating two trajectories
separately differs from treating their concatenated rewards as one
trajectory — discounting never mixes rewards across trajectory
boundaries. -/
theorem iterReturns_per_trajectory (g : ℚ) (pre post : List (Trajectory ℚ ℚ))
    (tr : Trajectory ℚ ℚ) :
    iterReturns (pre ++ tr :: post) g =
      iterReturns pre g ++ discount_rewards tr.reward g ++ iterReturns post g ∧
    ∃ r1 r2 : List ℚ, ∃ gg : ℚ, 0 < gg ∧ gg ≤ 1 ∧
      discount_rewards r1 gg ++ discount_rewards r2 gg ≠ discount_rewards (r1 ++ r2) gg := by
  constructor
  · simp [iterReturns, List.map_append, List.flatten_append, List.append_assoc]
  · refine ⟨[1], [1], 1, by norm_num, le_refl 1, ?_⟩
    norm_num [discount_rewards]

/-- C3: in one training iteration (either learner variant), the concatenated
state array, raw action array, returns array, and row-encoded action matrix
passed into the single gradient update all have exactly as many rows as the
sum of the collected trajectories' lengths, given that each trajectory
records one state and one action per reward step. -/
theorem batch_tuple_count {σ α : Type} (trajs : List (Trajectory σ α)) (g : ℚ)
    (enc : α → List ℚ)
    (h : ∀ t ∈ trajs, t.state.length = t.reward.length ∧ t.action.length = t.reward.length) :
    (allState trajs).length = (trajs.map fun t => t.reward.length).sum ∧
    (allAction trajs).length = (trajs.map fun t => t.reward.length).sum ∧
    (iterReturns trajs g).length = (trajs.map fun t => t.reward.length).sum ∧
    ((allAction trajs).map enc).length = (trajs.map fun t => t.reward.length).sum := by
  have hs : trajs.map (fun t => t.state.length) = trajs.map fun t => t.reward.length :=
    List.map_congr_left fun t ht => (h t ht).1
  have ha : trajs.map (fun t => t.action.length) = trajs.map fun t => t.reward.length :=
    List.map_congr_left fun t ht => (h t ht).2
  have hr : trajs.map (fun t => (discount_rewards t.reward g).length)
      = trajs.map fun t => t.reward.length :=
    List.map_congr_left fun t _ => discount_rewards_length t.reward g
  have hA : (allAction trajs).length = (trajs.map fun t => t.reward.length).sum := by
    simp only [allAction, List.length_flatten, List.map_map, Function.comp_def]
    exact congrArg List.sum ha
  refine ⟨?_, hA, ?_, ?_⟩
  · simp only [allState, List.length_flatten, List.map_map, Function.comp_def]
    exact congrArg List.sum hs
  · simp only [iterReturns, List.length_flatten, List.map_map, Function.comp_def]
    exact congrArg List.sum hr
  · simpa only [List.length_map] using hA

/-- Witness for C3 on a batch of two well-formed trajectories of lengths 2
and 1, with `g = 1/2` and the two-action one-hot encoder. -/
theorem batch_tuple_count_witness :
    (allState [(⟨[1, 2], [1, 2], [1, 2]⟩ : Trajectory ℚ ℚ), ⟨[3], [3], [3]⟩]).length =
      (([(⟨[1, 2], [1, 2], [1, 2]⟩ : Trajectory ℚ ℚ), ⟨[3], [3], [3]⟩]).map
        fun t => t.reward.length).sum ∧
    (allAction [(⟨[1, 2], [1, 2], [1, 2]⟩ : Trajectory ℚ ℚ), ⟨[3], [3], [3]⟩]).length =
      (([(⟨[1, 2], [1, 2], [1, 2]⟩ : Trajectory ℚ ℚ), ⟨[3], [3], [3]⟩]).map
        fun t => t.reward.length).sum ∧
    (iterReturns [(⟨[1, 2], [1, 2], [1, 2]⟩ : Trajectory ℚ ℚ), ⟨[3], [3], [3]⟩] (1 / 2)).length =
      (([(⟨[1, 2], [1, 2], [1, 2]⟩ : Trajectory ℚ ℚ), ⟨[3], [3], [3]⟩]).map
        fun t => t.reward.length).sum ∧
    ((allAction [(⟨[1, 2], [1, 2], [1, 2]⟩ : Trajectory ℚ ℚ), ⟨[3], [3], [3]⟩]).map
        fun _ => oneHot 2 0).length =
      (([(⟨[1, 2], [1, 2], [1, 2]⟩ : Trajectory ℚ ℚ), ⟨[3], [3], [3]⟩]).map
        fun t => t.reward.length).sum :=
  batch_tuple_count [⟨[1, 2], [1, 2], [1, 2]⟩, ⟨[3], [3], [3]⟩] (1 / 2)
    (fun _ => oneHot 2 0) (by decide)

/-- C4: for every run length `n_iter` and every sequence of collected
batches, the training loop performs exactly `n_iter` joint gradient updates
(one per iteration, with no early stopping), and each iteration's body
performs exactly one joint actor+critic update regardless of how many
trajectories are in its batch. -/
theorem learn_iteration_count (n_iter : ℕ) (batches : ℕ → List (Trajectory ℚ ℚ))
    (trajs : List (Trajectory ℚ ℚ)) :
    (learnEvents n_iter batches).count Event.jointUpdate = n_iter ∧
    (iterationEvents trajs).count Event.jointUpdate = 1 :=
  ⟨learnEvents_update_count n_iter batches, rfl⟩

/-- C5: a taken-action probability that is not exactly zero passes to the
logarithm unchanged and (being nonnegative) yields a strictly positive
argument; a probability exactly equal to zero is replaced by `1e-30`, which
is strictly positive, so the logarithm's argument is always strictly
positive and the flooring is a local recovery with no error path. -/
theorem floorProb_spec (p : ℚ) (hp : 0 ≤ p) (hne : p ≠ 0) :
    0 < floorProb p ∧ floorProb p = p ∧
    floorProb 0 = 1e-30 ∧ 0 < floorProb 0 := by
  have hpos : 0 < p := lt_of_le_of_ne hp (Ne.symm hne)
  refine ⟨?_, ?_, ?_, ?_⟩
  · simpa [floorProb, hne] using hpos
  · simp [floorProb, hne]
  · simp [floorProb]
  · norm_num [floorProb]

/-- Witness for C5 at `p = 1/2`. -/
theorem floorProb_spec_witness :
    0 < floorProb (1 / 2) ∧ floorProb (1 / 2) = 1 / 2 ∧
    floorProb 0 = 1e-30 ∧ 0 < floorProb 0 :=
  floorProb_spec (1 / 2) (by norm_num) (by norm_num)

/-- C6: the continuous actor's standard deviation
`softplus(x) + 1e-5` is strictly positive for every input logit `x`,
including arbitrarily large negative values. -/
theorem sigmaOut_pos (x : ℝ) : 0 < sigmaOut x := by
  unfold sigmaOut softplus
  have h1 : (1 : ℝ) < 1 + Real.exp x := by linarith [Real.exp_pos x]
  have h2 : (0 : ℝ) < 1e-5 := by norm_num
  linarith [Real.log_pos h1]

/-- C7: for every sampled value `x` and declared action bounds `lo ≤ hi`,
the clipped action `clip_by_value x lo hi` lies within `[lo, hi]`. -/
theorem clip_by_value_bounds (x lo hi : ℚ) (h : lo ≤ hi) :
    lo ≤ clip_by_value x lo hi ∧ clip_by_value x lo hi ≤ hi :=
  ⟨le_max_right _ _, max_le (min_le_right x hi) h⟩

/-- Witness for C7 at `x = 100`, bounds `[-2, 2]`. -/
theorem clip_by_value_bounds_witness :
    (-2 : ℚ) ≤ clip_by_value 100 (-2) 2 ∧ clip_by_value 100 (-2) 2 ≤ 2 :=
  clip_by_value_bounds 100 (-2) 2 (by norm_num)

/-- C8: within every iteration the critic value query (`critic_feedback`)
occurs strictly before the joint gradient update, and in a run of `n`
iterations starting from critic-parameter version 0, iteration `i` reads
version `i` for its advantage baseline — the version from before that
iteration's critic update — and leaves the parameters at version `i + 1`. -/
theorem critic_query_before_update (n i : ℕ) (trajs : List (Trajectory ℚ ℚ)) (h : i < n) :
    (iterationEvents trajs).indexOf Event.criticQuery <
      (iterationEvents trajs).indexOf Event.jointUpdate ∧
    (criticTrace 0 n).getD i (0, 0) = (i, i + 1) := by
  refine ⟨Nat.one_lt_two, ?_⟩
  simpa using criticTrace_getD n 0 i h

/-- Witness for C8 at `n = 3`, `i = 1`, empty batch. -/
theorem critic_query_before_update_witness :
    (iterationEvents ([] : List (Trajectory ℚ ℚ))).indexOf Event.criticQuery <
      (iterationEvents ([] : List (Trajectory ℚ ℚ))).indexOf Event.jointUpdate ∧
    (criticTrace 0 3).getD 1 (0, 0) = (1, 1 + 1) :=
  critic_query_before_update 3 1 [] (by norm_num)

/-- C9 counterexample: an interrupt raised while `env = gym.make(...)` is
executing (line 265) is covered by neither `try` block of `main`, so it
propagates uncaught — the process does not terminate gracefully and prints
a traceback after the interrupt, contradicting the claim that an interrupt
at any point during the run is recovered at the top level of `main`. -/
theorem main_interrupt_counterexample :
    (mainRun (some Phase.makeEnv) []).2 = MainResult.uncaughtInterrupt ∧
    (mainRun (some Phase.makeEnv) []).1 ≠ [] := by
  constructor
  · rfl
  · simp [mainRun]

/-- C9 (amended): an interrupt raised inside the monitored training block
(environment wrapping plus `agent.learn()`) is caught by
`except KeyboardInterrupt: pass` and the process terminates gracefully with
no output beyond what was already produced; an interrupt during argument
parsing hits the bare `except:` and also terminates gracefully; without an
interrupt `main` completes normally. -/
theorem main_interrupt_recovery (pre : List String) :
    mainRun (some Phase.trainBlock) pre = (pre, MainResult.gracefulStop) ∧
    mainRun (some Phase.parseArgs) pre = (pre, MainResult.gracefulStop) ∧
    mainRun none pre = (pre, MainResult.completed) :=
  ⟨rfl, rfl, rfl⟩

/-- C10: for a valid taken action `a < nA`, the encoded action row has `nA`
entries, holds 1 exactly at index `a` and 0 at every other index `j`, and
the row-wise product-and-sum against a length-`nA` probability row selects
exactly the probability assigned to action `a`. -/
theorem oneHot_selects (nA a j : ℕ) (p : List ℚ)
    (ha : a < nA) (hj : j < nA) (hja : j ≠ a) (hp : p.length = nA) :
    (oneHot nA a).length = nA ∧
    (oneHot nA a).getD a 0 = 1 ∧
    (oneHot nA a).getD j 0 = 0 ∧
    goodProbability p (oneHot nA a) = p.getD a 0 := by
  refine ⟨oneHot_length nA a, oneHot_getD_self nA a ha, oneHot_getD_other nA a j hj hja, ?_⟩
  subst hp
  exact goodProbability_oneHot p a ha

/-- Witness for C10 at `nA = 3`, `a = 1`, `j = 0`, `p = [5, 7, 9]`. -/
theorem oneHot_selects_witness :
    (oneHot 3 1).length = 3 ∧
    (oneHot 3 1).getD 1 0 = 1 ∧
    (oneHot 3 1).getD 0 0 = 0 ∧
    goodProbability [5, 7, 9] (oneHot 3 1) = ([5, 7, 9] : List ℚ).getD 1 0 :=
  oneHot_selects 3 1 0 [5, 7, 9] (by norm_num) (by norm_num) (by norm_num) rfl
